import Mathlib

/-!
Shallow embedding of `nltools/analysis.py` (the `Roc` class and the
`apply_mask` function).  numpy 1-D arrays are modelled as lists of
rationals; Python floats are modelled as `ℚ`; numpy boolean arrays as
lists of `Bool`.  Fallible Python code (raising exceptions) is modelled
with `Except String`.
-/

/-- numpy boolean-mask selection `a[m]`: the elements of `a` at the positions
where the mask is true.  numpy raises on a length mismatch between array and
mask; every use in `analysis.py` applies a mask of the array's own length and
the theorems below carry that hypothesis where it matters. -/
def maskSel {α : Type} : List α → List Bool → List α
  | x :: xs, b :: bs => if b then x :: maskSel xs bs else maskSel xs bs
  | _, _ => []

/-- numpy boolean-mask assignment `a[m] = r`: replace the elements at the true
positions of the mask by the successive elements of `r`. -/
def maskAssign {α : Type} : List α → List Bool → List α → List α
  | _ :: xs, true :: bs, r :: rs => r :: maskAssign xs bs rs
  | x :: xs, true :: bs, [] => x :: maskAssign xs bs []
  | x :: xs, false :: bs, rs => x :: maskAssign xs bs rs
  | xs, _, _ => xs

/-- `sum` of a numpy boolean array: the number of true entries. -/
def countTrue (l : List Bool) : Nat := l.countP id

/-- numpy broadcasting of a binary operation over two 1-D arrays: equal
lengths act elementwise, a length-1 array broadcasts against the other,
anything else raises ValueError. -/
def bcast {α β γ : Type} (f : α → β → γ) (as : List α) (bs : List β) :
    Except String (List γ) :=
  if as.length = bs.length then .ok (List.zipWith f as bs)
  else
    match as, bs with
    | [a], bs => .ok (bs.map (fun b => f a b))
    | as, [b] => .ok (as.map (fun a => f a b))
    | _, _ => .error "ValueError: operands could not be broadcast together"

/-- numpy masked assignment `a[m] = r` including the scalar broadcast of a
length-1 right-hand side; any other length mismatch raises. -/
def maskedSet (a : List ℚ) (m : List Bool) (r : List ℚ) : Except String (List ℚ) :=
  if r.length = countTrue m then .ok (maskAssign a m r)
  else if r.length = 1 then .ok (maskAssign a m (List.replicate (countTrue m) (r.headD 0)))
  else .error "ValueError: NumPy boolean array indexing assignment cannot assign"

/-- Python float division: raises ZeroDivisionError on a zero denominator. -/
def pyDiv (num den : ℚ) : Except String ℚ :=
  if den = 0 then .error "ZeroDivisionError: float division by zero" else .ok (num / den)

/-- A two-way branch between two already-formed fallible results (used to keep
the branch opaque to the do-notation elaborator). -/
def boolStep {α : Type} (c : Bool) (t e : Except String α) : Except String α :=
  if c then t else e

/-- `np.linspace a b num`: `num` evenly spaced samples from `a` to `b`
inclusive. -/
def linspace (a b : ℚ) (num : Nat) : List ℚ :=
  (List.range num).map (fun i : ℕ => a + (b - a) * (i : ℚ) / ((num : ℚ) - 1))

/-- Python `min` over a list; raises on an empty sequence. -/
def listMin : List ℚ → Except String ℚ
  | [] => .error "ValueError: min() arg is an empty sequence"
  | x :: xs => .ok (xs.foldl min x)

/-- Python `max` over a list; raises on an empty sequence. -/
def listMax : List ℚ → Except String ℚ
  | [] => .error "ValueError: max() arg is an empty sequence"
  | x :: xs => .ok (xs.foldl max x)

/-- `np.trapz y x`: trapezoidal integration of the samples `y` against the
sample positions `x`. -/
def trapz : List ℚ → List ℚ → ℚ
  | y0 :: y1 :: ys, x0 :: x1 :: xs => (x1 - x0) * (y0 + y1) / 2 + trapz (y1 :: ys) (x1 :: xs)
  | _, _ => 0

/-- Every pair of consecutive elements of the list satisfies `p`
(`np.all` over `np.diff`). -/
def diffsAll (p : ℚ → ℚ → Bool) : List ℚ → Bool
  | x :: y :: xs => p x y && diffsAll p (y :: xs)
  | _ => true

/-- Some pair of consecutive elements of the list satisfies `p`
(`np.any` over `np.diff`). -/
def diffsAny (p : ℚ → ℚ → Bool) : List ℚ → Bool
  | x :: y :: xs => p x y || diffsAny p (y :: xs)
  | _ => false

/-- `sklearn.metrics.auc x y`: requires at least two points and a monotone
`x`; integrates `y` by the trapezoidal rule, with the sign flipped when `x`
is decreasing. -/
def sklearnAuc (x y : List ℚ) : Except String ℚ :=
  if x.length < 2 then
    .error "ValueError: At least 2 points are needed to compute area under curve"
  else if diffsAny (fun a b => decide (b < a)) x then
    if diffsAll (fun a b => decide (b ≤ a)) x then .ok (-(trapz y x))
    else .error "ValueError: x is neither increasing nor decreasing"
  else .ok (trapz y x)

/-- Accumulator loop for `np.argmax`: `v` is the running maximum, `bi` its
index, `i` the index of the next element; only a strictly larger element
updates the pair, so the first occurrence of the maximum wins. -/
def argmaxAux (v : ℚ) (bi i : ℕ) : List ℚ → ℕ
  | [] => bi
  | x :: xs => if v < x then argmaxAux x i (i + 1) xs else argmaxAux v bi (i + 1) xs

/-- `np.argmax`: index of the first occurrence of the maximum value. -/
def argmaxIdx : List ℚ → Nat
  | [] => 0
  | x :: xs => argmaxAux x 0 1 xs

/-- Accumulator loop for `np.argmin`, symmetric to `argmaxAux`. -/
def argminAux (v : ℚ) (bi i : ℕ) : List ℚ → ℕ
  | [] => bi
  | x :: xs => if x < v then argminAux x i (i + 1) xs else argminAux v bi (i + 1) xs

/-- `np.argmin`: index of the first occurrence of the minimum value. -/
def argminIdx : List ℚ → Nat
  | [] => 0
  | x :: xs => argminAux x 0 1 xs

/-- The state of an nltools `Roc` object after `__init__`: the four
attributes set by the constructor. -/
structure Roc where
  input_values : List ℚ
  binary_outcome : List Bool
  threshold_type : String
  forced_choice : Bool
deriving DecidableEq

/-- `Roc.__init__` (analysis.py lines 393-418): length check, the
`not any(binary_outcome)` check, threshold-type validation, attribute
assignment. -/
def Roc.init (input_values : List ℚ) (binary_outcome : List Bool)
    (threshold_type : String) (forced_choice : Bool) : Except String Roc :=
  if input_values.length ≠ binary_outcome.length then
    .error "Data Problem: input_value and binary_outcome are different lengths."
  else if !binary_outcome.any id then
    .error "Data Problem: binary_outcome may not be boolean"
  else if !(threshold_type == "optimal_overall" || threshold_type == "optimal_balanced"
      || threshold_type == "minimum_sdt_bias") then
    .error "threshold_type must be one of optimal_overall, optimal_balanced, minimum_sdt_bias"
  else
    .ok ⟨input_values, binary_outcome, threshold_type, forced_choice⟩

/-- The attributes a `Roc` object carries after a successful call to
`Roc.calculate` (a fresh object: `class_thr` not previously set). -/
structure RocResult where
  input_values : List ℚ
  binary_outcome : List Bool
  threshold_type : String
  forced_choice : Bool
  criterion_values : List ℚ
  tpr : List ℚ
  fpr : List ℚ
  n_true : ℚ
  n_false : ℚ
  auc : ℚ
  class_thr : ℚ
  false_positive : List Bool
  false_negative : List Bool
  misclass : List Bool
  true_positive : List Bool
  true_negative : List Bool
  sensitivity : ℚ
  specificity : ℚ
  ppv : ℚ
  accuracy : ℚ
  n : Nat
deriving DecidableEq

/-- Criterion-value resolution (lines 443-447): the supplied values, or an
ascending 50*n-point linspace from the minimum to the maximum input value. -/
def rocCriterion (iv : List ℚ) (bo : List Bool) :
    Option (List ℚ) → Except String (List ℚ)
  | some c => .ok c
  | none => do
    let lo ← listMin iv
    let hi ← listMax iv
    .ok (linspace lo hi (50 * bo.length))

/-- The forced-choice transformation (lines 449-453), exactly as coded:
`mn_scores = (iv[bo] + iv[bo])/2` (both terms select the true-outcome
scores), then it is subtracted from the true-outcome scores and from the
false-outcome scores. -/
def forcedTransform (iv : List ℚ) (bo : List Bool) : Except String (List ℚ) := do
  let mn_scores ← bcast (fun a b => (a + b) / 2) (maskSel iv bo) (maskSel iv bo)
  let diffTrue ← bcast (fun a b => a - b) (maskSel iv bo) mn_scores
  let iv1 ← maskedSet iv bo diffTrue
  let diffFalse ← bcast (fun a b => a - b) (maskSel iv1 (bo.map not)) mn_scores
  maskedSet iv1 (bo.map not) diffFalse

/-- One entry of the tpr array (line 461): `wh = input_values >= x`
restricted to the true outcomes, counted and divided by the number of true
outcomes. -/
def tprAt (iv : List ℚ) (bo : List Bool) (x : ℚ) : ℚ :=
  (countTrue (maskSel (iv.map (fun v => decide (x ≤ v))) bo) : ℚ) / (countTrue bo : ℚ)

/-- One entry of the fpr array (line 462): `wh` restricted to the false
outcomes, counted and divided by the number of false outcomes. -/
def fprAt (iv : List ℚ) (bo : List Bool) (x : ℚ) : ℚ :=
  (countTrue (maskSel (iv.map (fun v => decide (x ≤ v))) (bo.map not)) : ℚ) /
    (countTrue (bo.map not) : ℚ)

/-- The tpr/fpr loop (lines 457-462).  When the criterion array is nonempty
the first iteration performs the two float divisions; a zero count of true
(respectively false) outcomes raises ZeroDivisionError there. -/
def rocRates (iv : List ℚ) (bo : List Bool) (crit : List ℚ) :
    Except String (List ℚ × List ℚ) :=
  match crit with
  | [] => .ok ([], [])
  | _ =>
    if countTrue bo = 0 then .error "ZeroDivisionError: float division by zero"
    else if countTrue (bo.map not) = 0 then .error "ZeroDivisionError: float division by zero"
    else .ok (crit.map (tprAt iv bo), crit.map (fprAt iv bo))

/-- Threshold selection (lines 478-491) for the non-forced-choice case.  The
`optimal_balanced` branch reads the bare names `tpr` and `fpr` (line 481)
which are not defined in `calculate` nor at module level, so Python raises
NameError there.  `ppf` stands for `scipy.stats.norm.ppf`.  An unrecognized
threshold type leaves `self.class_thr` unset on a fresh object, so the later
read at line 494 raises AttributeError. -/
def rocThreshold (ppf : ℚ → ℚ) (crit tpr fpr : List ℚ) (n_true n_false : ℚ)
    (threshold_type : String) : Except String ℚ :=
  if threshold_type = "optimal_balanced" then
    .error "NameError: name tpr is not defined"
  else if threshold_type = "optimal_overall" then
    let sm := List.zipWith (fun t f => t * n_true + (1 - f) * n_false) tpr fpr
    match sm with
    | [] => .error "ValueError: attempt to get argmax of an empty sequence"
    | _ => .ok (crit.getD (argmaxIdx sm) 0)
  else if threshold_type = "minimum_sdt_bias" then
    let c_bias := List.zipWith
      (fun t f => (ppf (max (1 / 10000 : ℚ) (min (9999 / 10000 : ℚ) t)) +
        ppf (max (1 / 10000 : ℚ) (min (9999 / 10000 : ℚ) f))) / 2) tpr fpr
    match c_bias with
    | [] => .error "ValueError: attempt to get argmin of an empty sequence"
    | _ => .ok (crit.getD (argminIdx (c_bias.map (fun c => |c|))) 0)
  else .error "AttributeError: Roc instance has no attribute class_thr"

/-- `Roc.calculate` (lines 420-518) on a freshly constructed object.  `ppf`
stands for `scipy.stats.norm.ppf` (an external library function, passed in
explicitly).  The binomial-test p-value and the standard error of the
accuracy (lines 517-518, scipy and `np.sqrt`) are irrational-valued library
calls and are not modelled; they are computed after every field below. -/
def Roc.calculate (ppf : ℚ → ℚ) (self : Roc)
    (input_values : Option (List ℚ)) (binary_outcome : Option (List Bool))
    (criterion_values : Option (List ℚ)) (threshold_type : String)
    (forced_choice : Bool) (balanced_acc : Bool) : Except String RocResult := do
  let iv0 := input_values.getD self.input_values
  let bo := binary_outcome.getD self.binary_outcome
  let crit ← rocCriterion iv0 bo criterion_values
  let fc := forced_choice || self.forced_choice
  let iv ← boolStep fc (forcedTransform iv0 bo) (.ok iv0)
  let rates ← rocRates iv bo crit
  let tpr := rates.1
  let fpr := rates.2
  let n_true : ℚ := (countTrue bo : ℚ)
  let n_false : ℚ := (countTrue (bo.map not) : ℚ)
  let aucv ← sklearnAuc fpr tpr
  let ttype := if fc then self.threshold_type else threshold_type
  let class_thr ← boolStep fc (.ok (0 : ℚ))
    (rocThreshold ppf crit tpr fpr n_true n_false threshold_type)
  let fp0 ← bcast (fun v b => decide (class_thr ≤ v) && !b) iv bo
  let fn0 ← bcast (fun v b => decide (v < class_thr) && b) iv bo
  let mis0 ← bcast (fun a b => a || b) fn0 fp0
  let tp0 ← bcast (fun b m => b && !m) bo mis0
  let tn0 ← bcast (fun b m => !b && !m) bo mis0
  let sens ← pyDiv (countTrue ((maskSel iv bo).map (fun v => decide (class_thr ≤ v))) : ℚ) n_true
  let spec0 ← pyDiv (countTrue ((maskSel iv (bo.map not)).map (fun v => decide (class_thr ≤ v))) : ℚ) n_false
  let spec := 1 - spec0
  let ppv ← pyDiv (countTrue tp0 : ℚ) ((countTrue tp0 : ℚ) + (countTrue fp0 : ℚ))
  let tpF := if fc then maskSel tp0 bo else tp0
  let tnF := if fc then maskSel tn0 (bo.map not) else tn0
  let fnF := if fc then maskSel fn0 bo else fn0
  let fpF := if fc then maskSel fp0 (bo.map not) else fp0
  let misF ← boolStep fc (bcast (fun a b => a || b) (maskSel fp0 (bo.map not)) (maskSel fn0 bo))
    (.ok mis0)
  let accuracy := if balanced_acc then (sens + spec) / 2
    else 1 - (countTrue misF : ℚ) / (misF.length : ℚ)
  .ok ⟨iv, bo, ttype, fc, crit, tpr, fpr, n_true, n_false, aucv, class_thr,
    fpF, fnF, misF, tpF, tnF, sens, spec, ppv, accuracy, misF.length⟩

/-- `np.dot` of a row with a column: elementwise products summed. -/
def dotprod (α : Type) [CommRing α] (a b : List α) : α :=
  (List.zipWith (fun x y => x * y) a b).sum

/-- `apply_mask` (lines 346-389) after the nilearn masking step:
`data_masked` is the masked n-by-v data matrix, `weight_map_masked` the
masked weight-map row; `np.dot(data, w.T).squeeze()` is the vector of
row-by-row dot products.  `pearson` stands for `nltools.stats.pearson`,
imported from a module that is not part of this repository snapshot.  For
any other method string, no branch assigns `pexp` and the function reaches
`return pexp`, a NameError. -/
def apply_mask (α : Type) [CommRing α]
    (pearson : List (List α) → List α → List α)
    (data_masked : List (List α)) (weight_map_masked : List α)
    (method : String) : Except String (List α) :=
  if method = "dot_product" then
    .ok (data_masked.map (fun row => dotprod α row weight_map_masked))
  else if method = "correlation" then
    .ok (pearson data_masked weight_map_masked)
  else .error "NameError: name pexp is not defined"

/-- Modelled from the spec: `nltools.stats.pearson` is imported from a module
missing from this snapshot; the spec says the correlation method returns the
Pearson correlation between each masked image and the masked weight map.
This is the textbook Pearson correlation coefficient of two samples. -/
noncomputable def pearsonCorr (x y : List ℝ) : ℝ :=
  let n : ℝ := x.length
  let mx := x.sum / n
  let my := y.sum / n
  (List.zipWith (fun a b => (a - mx) * (b - my)) x y).sum /
    (Real.sqrt ((x.map (fun a => (a - mx) ^ 2)).sum) *
      Real.sqrt ((y.map (fun b => (b - my) ^ 2)).sum))

/-- Modelled from the spec: the row-wise application of `pearsonCorr`, the
shape in which `nltools.stats.pearson` is used by `apply_mask`. -/
noncomputable def pearsonRows (data : List (List ℝ)) (w : List ℝ) : List ℝ :=
  data.map (fun row => pearsonCorr row w)

/-- Number of observations with a true outcome whose input value is at least
`x` (the spec-side reading of the tpr numerator). -/
def hitCount (iv : List ℚ) (bo : List Bool) (x : ℚ) : Nat :=
  (iv.zip bo).countP (fun p => p.2 && decide (x ≤ p.1))

/-- Number of observations with a false outcome whose input value is at least
`x` (the spec-side reading of the fpr numerator). -/
def faCount (iv : List ℚ) (bo : List Bool) (x : ℚ) : Nat :=
  (iv.zip bo).countP (fun p => !p.2 && decide (x ≤ p.1))

/-- Trapezoidal-rule area under a sampled curve whose x-coordinates run from
the largest value leftwards: the sum of (x i - x (i+1)) * (y i + y (i+1)) / 2
(the spec-side reading of the area under the computed ROC curve, whose fpr
coordinate is non-increasing along the criterion sweep). -/
def trapezoidArea : List ℚ → List ℚ → ℚ
  | x0 :: x1 :: xs, y0 :: y1 :: ys =>
    (x0 - x1) * (y0 + y1) / 2 + trapezoidArea (x1 :: xs) (y1 :: ys)
  | _, _ => 0

/-- The `Except` value is `ok` and its payload satisfies `p`. -/
def exceptOkP {α : Type} (p : α → Prop) : Except String α → Prop
  | .ok a => p a
  | .error _ => False

/-- Decidable equality of `Except` values, for evaluating the embedding at
concrete inputs. -/
instance exceptDecEq {ε α : Type} [DecidableEq ε] [DecidableEq α] : DecidableEq (Except ε α)
  | .ok a, .ok b => if h : a = b then .isTrue (by rw [h]) else .isFalse (by simp [h])
  | .error e, .error f => if h : e = f then .isTrue (by rw [h]) else .isFalse (by simp [h])
  | .ok _, .error _ => .isFalse (by simp)
  | .error _, .ok _ => .isFalse (by simp)

/-! ### Inversion helpers for the `Except` chains -/

theorem exbind_ok {α β : Type} {x : Except String α} {f : α → Except String β} {b : β}
    (h : x >>= f = Except.ok b) : ∃ a, x = Except.ok a ∧ f a = Except.ok b := by
  cases x with
  | error e => simp [Bind.bind, Except.bind] at h
  | ok a => exact ⟨a, rfl, by simpa [Bind.bind, Except.bind] using h⟩

theorem pyDiv_ok {a b q : ℚ} (h : pyDiv a b = .ok q) : b ≠ 0 ∧ q = a / b := by
  rw [pyDiv] at h
  by_cases hb : b = 0
  · rw [if_pos hb] at h; exact Except.noConfusion h
  · rw [if_neg hb] at h; injection h with h; exact ⟨hb, h.symm⟩

theorem boolStep_false {α : Type} (t e : Except String α) : boolStep false t e = e := rfl

theorem boolStep_true {α : Type} (t e : Except String α) : boolStep true t e = t := rfl

theorem rocCriterion_some (iv : List ℚ) (bo : List Bool) (c : List ℚ) :
    rocCriterion iv bo (some c) = .ok c := rfl

theorem rocCriterion_none_cons (v : ℚ) (vs : List ℚ) (bo : List Bool) :
    rocCriterion (v :: vs) bo none =
      .ok (linspace (vs.foldl min v) (vs.foldl max v) (50 * bo.length)) := rfl

theorem rocRates_ok {iv : List ℚ} {bo : List Bool} {crit t f : List ℚ}
    (h : rocRates iv bo crit = .ok (t, f)) :
    t = crit.map (tprAt iv bo) ∧ f = crit.map (fprAt iv bo) := by
  cases crit with
  | nil =>
    simp only [rocRates] at h
    injection h with h
    injection h with h1 h2
    exact ⟨h1.symm, h2.symm⟩
  | cons c cs =>
    simp only [rocRates] at h
    by_cases h1 : countTrue bo = 0
    · rw [if_pos h1] at h; exact Except.noConfusion h
    rw [if_neg h1] at h
    by_cases h2 : countTrue (bo.map not) = 0
    · rw [if_pos h2] at h; exact Except.noConfusion h
    rw [if_neg h2] at h
    injection h with h
    exact ⟨congrArg Prod.fst h.symm, congrArg Prod.snd h.symm⟩

/-- Full inversion of a successful `Roc.calculate` run: every intermediate
stage succeeded and each result attribute equals the value the code computes
from those stages. -/
theorem calculate_ok_inv {ppf : ℚ → ℚ} {self : Roc} {ivA : Option (List ℚ)}
    {boA : Option (List Bool)} {critA : Option (List ℚ)} {tt : String}
    {fcA ba : Bool} {r : RocResult}
    (h : Roc.calculate ppf self ivA boA critA tt fcA ba = .ok r) :
    ∃ crit iv tpr fpr aucv thr fp0 fn0 mis0 misF,
      rocCriterion (ivA.getD self.input_values) (boA.getD self.binary_outcome) critA = .ok crit ∧
      boolStep (fcA || self.forced_choice)
        (forcedTransform (ivA.getD self.input_values) (boA.getD self.binary_outcome))
        (.ok (ivA.getD self.input_values)) = .ok iv ∧
      rocRates iv (boA.getD self.binary_outcome) crit = .ok (tpr, fpr) ∧
      sklearnAuc fpr tpr = .ok aucv ∧
      boolStep (fcA || self.forced_choice) (.ok 0)
        (rocThreshold ppf crit tpr fpr (countTrue (boA.getD self.binary_outcome) : ℚ)
          (countTrue ((boA.getD self.binary_outcome).map not) : ℚ) tt) = .ok thr ∧
      bcast (fun v b => decide (thr ≤ v) && !b) iv (boA.getD self.binary_outcome) = .ok fp0 ∧
      bcast (fun v b => decide (v < thr) && b) iv (boA.getD self.binary_outcome) = .ok fn0 ∧
      bcast (fun a b => a || b) fn0 fp0 = .ok mis0 ∧
      (countTrue (boA.getD self.binary_outcome) : ℚ) ≠ 0 ∧
      (countTrue ((boA.getD self.binary_outcome).map not) : ℚ) ≠ 0 ∧
      boolStep (fcA || self.forced_choice)
        (bcast (fun a b => a || b) (maskSel fp0 ((boA.getD self.binary_outcome).map not))
          (maskSel fn0 (boA.getD self.binary_outcome))) (.ok mis0) = .ok misF ∧
      r.input_values = iv ∧
      r.binary_outcome = boA.getD self.binary_outcome ∧
      r.threshold_type = (if (fcA || self.forced_choice) = true then self.threshold_type else tt) ∧
      r.forced_choice = (fcA || self.forced_choice) ∧
      r.criterion_values = crit ∧
      r.tpr = tpr ∧
      r.fpr = fpr ∧
      r.n_true = (countTrue (boA.getD self.binary_outcome) : ℚ) ∧
      r.n_false = (countTrue ((boA.getD self.binary_outcome).map not) : ℚ) ∧
      r.auc = aucv ∧
      r.class_thr = thr ∧
      r.misclass = misF ∧
      r.sensitivity = (countTrue ((maskSel iv (boA.getD self.binary_outcome)).map
        (fun v => decide (thr ≤ v))) : ℚ) / (countTrue (boA.getD self.binary_outcome) : ℚ) ∧
      r.specificity = 1 - (countTrue ((maskSel iv ((boA.getD self.binary_outcome).map not)).map
        (fun v => decide (thr ≤ v))) : ℚ) / (countTrue ((boA.getD self.binary_outcome).map not) : ℚ) ∧
      r.accuracy = (if ba = true then (r.sensitivity + r.specificity) / 2
        else 1 - (countTrue misF : ℚ) / (misF.length : ℚ)) ∧
      r.n = misF.length := by
  simp only [Roc.calculate] at h
  obtain ⟨crit, hcrit, h⟩ := exbind_ok h
  obtain ⟨iv, hiv, h⟩ := exbind_ok h
  obtain ⟨rates, hrates, h⟩ := exbind_ok h
  obtain ⟨aucv, hauc, h⟩ := exbind_ok h
  obtain ⟨thr, hthr, h⟩ := exbind_ok h
  obtain ⟨fp0, hfp0, h⟩ := exbind_ok h
  obtain ⟨fn0, hfn0, h⟩ := exbind_ok h
  obtain ⟨mis0, hmis0, h⟩ := exbind_ok h
  obtain ⟨tp0, htp0, h⟩ := exbind_ok h
  obtain ⟨tn0, htn0, h⟩ := exbind_ok h
  obtain ⟨sens, hsens, h⟩ := exbind_ok h
  obtain ⟨spec0, hspec, h⟩ := exbind_ok h
  obtain ⟨ppv, hppv, h⟩ := exbind_ok h
  obtain ⟨misF, hmisF, h⟩ := exbind_ok h
  obtain ⟨hnt, hsens⟩ := pyDiv_ok hsens
  obtain ⟨hnf, hspec⟩ := pyDiv_ok hspec
  injection h with h
  subst hsens hspec
  refine ⟨crit, iv, rates.1, rates.2, aucv, thr, fp0, fn0, mis0, misF,
    hcrit, hiv, by simpa using hrates, hauc, hthr, hfp0, hfn0, hmis0, hnt, hnf, hmisF,
    ?_, ?_, ?_, ?_, ?_, ?_, ?_, ?_, ?_, ?_, ?_, ?_, ?_, ?_, ?_, ?_⟩ <;>
    rw [← h]

/-! ### Counting lemmas bridging the numpy-shaped code to the spec shapes -/

theorem countTrue_cons (b : Bool) (l : List Bool) :
    countTrue (b :: l) = countTrue l + if b then 1 else 0 := by
  cases b <;> simp [countTrue, List.countP_cons]

theorem countTrue_maskSel_map (f : ℚ → Bool) (iv : List ℚ) :
    ∀ bo : List Bool, iv.length = bo.length →
      countTrue (maskSel (iv.map f) bo) = (iv.zip bo).countP (fun p => p.2 && f p.1) := by
  induction iv with
  | nil =>
    intro bo h
    cases bo with
    | nil => rfl
    | cons b bs => simp at h
  | cons x xs ih =>
    intro bo h
    cases bo with
    | nil => simp at h
    | cons b bs =>
      have ih2 := ih bs (by simpa using h)
      cases b with
      | false => simpa [maskSel, List.countP_cons] using ih2
      | true =>
        cases hfx : f x <;>
          simp [maskSel, countTrue_cons, List.countP_cons, hfx, ih2]

theorem countTrue_maskSel_map_not (f : ℚ → Bool) (iv : List ℚ) (bo : List Bool)
    (h : iv.length = bo.length) :
    countTrue (maskSel (iv.map f) (bo.map not)) =
      (iv.zip bo).countP (fun p => !p.2 && f p.1) := by
  have hmain := countTrue_maskSel_map f iv (bo.map not) (by simpa using h)
  rw [hmain, List.zip_map_right, List.countP_map]
  rfl

theorem countTrue_map_not (bo : List Bool) :
    countTrue (bo.map not) = bo.countP (fun b => !b) := by
  rw [countTrue, List.countP_map]
  rfl

/-! ### Bounds for Python min/max folds -/

theorem foldl_min_le (xs : List ℚ) : ∀ x : ℚ, xs.foldl min x ≤ x := by
  induction xs with
  | nil => intro x; exact le_refl x
  | cons a l ih => intro x; exact le_trans (ih (min x a)) (min_le_left x a)

theorem le_foldl_max (xs : List ℚ) : ∀ x : ℚ, x ≤ xs.foldl max x := by
  induction xs with
  | nil => intro x; exact le_refl x
  | cons a l ih => intro x; exact le_trans (le_max_left x a) (ih (max x a))

theorem foldl_min_le_foldl_max (x : ℚ) (xs : List ℚ) :
    xs.foldl min x ≤ xs.foldl max x :=
  le_trans (foldl_min_le xs x) (le_foldl_max xs x)

/-! ### Monotone chains -/

theorem diffsAll_map_range' (f : ℕ → ℚ) (p : ℚ → ℚ → Bool)
    (hf : ∀ i, p (f i) (f (i + 1)) = true) :
    ∀ n s : ℕ, diffsAll p ((List.range' s n).map f) = true := by
  intro n
  induction n with
  | zero => intro s; rfl
  | succ m ih =>
    intro s
    cases m with
    | zero => rfl
    | succ k =>
      rw [List.range'_succ, List.range'_succ]
      simp only [List.map_cons, diffsAll]
      have h1 := hf s
      have h2 := ih (s + 1)
      rw [List.range'_succ] at h2
      simp only [List.map_cons, diffsAll] at h2 ⊢
      rw [h1, h2]
      rfl

theorem linspace_chain (a b : ℚ) (hab : a ≤ b) (n : ℕ) :
    diffsAll (fun p q => decide (p ≤ q)) (linspace a b n) = true := by
  rcases n with _ | _ | n
  · rfl
  · rfl
  · simp only [linspace, List.range_eq_range']
    apply diffsAll_map_range'
    intro i
    simp only [decide_eq_true_eq]
    have hba : (0 : ℚ) ≤ b - a := by linarith
    have hm : (0 : ℚ) < ((n + 1 + 1 : ℕ) : ℚ) - 1 := by push_cast; linarith
    have hnum : (b - a) * ((i : ℕ) : ℚ) ≤ (b - a) * (((i + 1 : ℕ) : ℕ) : ℚ) := by
      push_cast
      nlinarith
    have hdiv := (div_le_div_iff_of_pos_right hm).mpr hnum
    linarith

theorem diffsAll_map_anti (g : ℚ → ℚ) (l : List ℚ)
    (hg : ∀ p q : ℚ, p ≤ q → g q ≤ g p)
    (hl : diffsAll (fun p q => decide (p ≤ q)) l = true) :
    diffsAll (fun p q => decide (q ≤ p)) (l.map g) = true := by
  induction l with
  | nil => rfl
  | cons x t ih =>
    cases t with
    | nil => rfl
    | cons y ys =>
      simp only [diffsAll, List.map_cons, Bool.and_eq_true, decide_eq_true_eq] at hl ⊢
      exact ⟨hg x y hl.1, ih hl.2⟩

/-! ### Trapezoid identities -/

theorem trapezoidArea_eq_neg_trapz : ∀ x y : List ℚ, trapezoidArea x y = -(trapz y x)
  | x0 :: x1 :: xs, y0 :: y1 :: ys => by
    have ih := trapezoidArea_eq_neg_trapz (x1 :: xs) (y1 :: ys)
    simp only [trapezoidArea, trapz]
    rw [ih]
    ring
  | [], y => by
    cases y with
    | nil => simp [trapezoidArea, trapz]
    | cons a t => cases t <;> simp [trapezoidArea, trapz]
  | [x0], y => by
    cases y with
    | nil => simp [trapezoidArea, trapz]
    | cons a t => cases t <;> simp [trapezoidArea, trapz]
  | x0 :: x1 :: xs, [] => by simp [trapezoidArea, trapz]
  | x0 :: x1 :: xs, [y0] => by simp [trapezoidArea, trapz]

theorem trapz_eq_zero_of_flat (x : List ℚ)
    (hall : diffsAll (fun a b => decide (b ≤ a)) x = true)
    (hany : diffsAny (fun a b => decide (b < a)) x = false) :
    ∀ y : List ℚ, trapz y x = 0 := by
  induction x with
  | nil =>
    intro y
    cases y with
    | nil => rfl
    | cons a t => cases t <;> rfl
  | cons x0 t ih =>
    cases t with
    | nil =>
      intro y
      cases y with
      | nil => rfl
      | cons a t2 => cases t2 <;> rfl
    | cons x1 xs =>
      simp only [diffsAll, Bool.and_eq_true, decide_eq_true_eq] at hall
      simp only [diffsAny, Bool.or_eq_false_iff, decide_eq_false_iff_not] at hany
      have hx : x1 = x0 := le_antisymm hall.1 (not_lt.mp hany.1)
      have ihx := ih hall.2 hany.2
      intro y
      cases y with
      | nil => rfl
      | cons y0 t2 =>
        cases t2 with
        | nil => rfl
        | cons y1 ys =>
          simp only [trapz]
          rw [ihx (y1 :: ys), hx]
          ring

theorem sklearnAuc_ok_eq {x y : List ℚ} {v : ℚ}
    (hx : diffsAll (fun a b => decide (b ≤ a)) x = true)
    (h : sklearnAuc x y = .ok v) : v = trapezoidArea x y := by
  rw [sklearnAuc] at h
  by_cases hlen : x.length < 2
  · rw [if_pos hlen] at h; exact Except.noConfusion h
  rw [if_neg hlen] at h
  by_cases hany : diffsAny (fun a b => decide (b < a)) x = true
  · rw [if_pos hany, if_pos hx] at h
    injection h with h
    rw [← h, trapezoidArea_eq_neg_trapz]
  · rw [if_neg hany] at h
    injection h with h
    rw [← h, trapezoidArea_eq_neg_trapz x y,
      trapz_eq_zero_of_flat x hx (Bool.not_eq_true _ ▸ hany) y]
    norm_num
theorem getD_mem_of_lt (l : List ℚ) : ∀ j, j < l.length → l.getD j 0 ∈ l := by
  induction l with
  | nil => intro j hj; simp at hj
  | cons x t ih =>
    intro j hj
    cases j with
    | zero => simp
    | succ m =>
      rw [List.getD_cons_succ]
      exact List.mem_cons_of_mem x (ih m (by simpa using hj))

theorem argmaxAux_spec (xs : List ℚ) : ∀ (v : ℚ) (bi i : ℕ),
    (argmaxAux v bi i xs = bi ∧ ∀ y ∈ xs, y ≤ v) ∨
    (∃ k, k < xs.length ∧ argmaxAux v bi i xs = i + k ∧
      v < xs.getD k 0 ∧ ∀ y ∈ xs, y ≤ xs.getD k 0) := by
  induction xs with
  | nil => intro v bi i; left; exact ⟨rfl, by simp⟩
  | cons x t ih =>
    intro v bi i
    by_cases hv : v < x
    · rcases ih x i (i + 1) with ⟨heq, hle⟩ | ⟨k, hk, heq, hlt, hle⟩
      · right
        refine ⟨0, by simp, ?_, by simpa using hv, ?_⟩
        · simp only [argmaxAux, if_pos hv, heq, Nat.add_zero]
        · intro y hy
          rcases List.mem_cons.mp hy with hy0 | hmem
          · subst hy0; simp
          · simpa using hle y hmem
      · right
        refine ⟨k + 1, by simpa using Nat.succ_lt_succ hk, ?_, ?_, ?_⟩
        · simp only [argmaxAux, if_pos hv, heq]; omega
        · rw [List.getD_cons_succ]; exact lt_trans hv hlt
        · intro y hy
          rcases List.mem_cons.mp hy with hy0 | hmem
          · subst hy0; rw [List.getD_cons_succ]; exact le_of_lt hlt
          · rw [List.getD_cons_succ]; exact hle y hmem
    · rcases ih v bi (i + 1) with ⟨heq, hle⟩ | ⟨k, hk, heq, hlt, hle⟩
      · left
        refine ⟨by simp only [argmaxAux, if_neg hv, heq], ?_⟩
        intro y hy
        rcases List.mem_cons.mp hy with hy0 | hmem
        · subst hy0; exact not_lt.mp hv
        · exact hle y hmem
      · right
        refine ⟨k + 1, by simpa using Nat.succ_lt_succ hk, ?_, ?_, ?_⟩
        · simp only [argmaxAux, if_neg hv, heq]; omega
        · rw [List.getD_cons_succ]; exact lt_of_le_of_lt (le_refl v) hlt
        · intro y hy
          rcases List.mem_cons.mp hy with hy0 | hmem
          · subst hy0; rw [List.getD_cons_succ]
            exact le_trans (not_lt.mp hv) (le_of_lt hlt)
          · rw [List.getD_cons_succ]; exact hle y hmem

theorem argmaxIdx_spec (l : List ℚ) :
    (l ≠ [] → argmaxIdx l < l.length) ∧
    (∀ j, j < l.length → l.getD j 0 ≤ l.getD (argmaxIdx l) 0) := by
  cases l with
  | nil => exact ⟨fun hc => absurd rfl hc, fun j hj => absurd hj (by simp)⟩
  | cons x t =>
    rcases argmaxAux_spec t x 0 1 with ⟨heq, hle⟩ | ⟨k, hk, heq, hlt, hle⟩
    · have hidx : argmaxIdx (x :: t) = 0 := by simp only [argmaxIdx, heq]
      constructor
      · intro _; rw [hidx]; simp
      · intro j hj
        rw [hidx]
        cases j with
        | zero => simp
        | succ m =>
          rw [List.getD_cons_succ, List.getD_cons_zero]
          exact hle _ (getD_mem_of_lt t m (by simpa using hj))
    · have hidx : argmaxIdx (x :: t) = k + 1 := by simp only [argmaxIdx, heq]; omega
      constructor
      · intro _; rw [hidx]; simpa using Nat.succ_lt_succ hk
      · intro j hj
        rw [hidx, List.getD_cons_succ]
        cases j with
        | zero => rw [List.getD_cons_zero]; exact le_of_lt hlt
        | succ m =>
          rw [List.getD_cons_succ]
          exact hle _ (getD_mem_of_lt t m (by simpa using hj))
theorem getD_zipWith (f : ℚ → ℚ → ℚ) :
    ∀ (l1 l2 : List ℚ) (j : ℕ), j < l1.length → j < l2.length →
      (List.zipWith f l1 l2).getD j 0 = f (l1.getD j 0) (l2.getD j 0)
  | x :: xs, y :: ys, 0, _, _ => rfl
  | x :: xs, y :: ys, j + 1, h1, h2 => by
    simp only [List.zipWith_cons_cons, List.getD_cons_succ]
    exact getD_zipWith f xs ys j (by simpa using h1) (by simpa using h2)
  | [], _, j, h1, _ => by simp at h1
  | _ :: _, [], j, _, h2 => by simp at h2

theorem ok_bind {α β : Type} (a : α) (f : α → Except String β) :
    (Except.ok a >>= f) = f a := rfl

theorem error_bind {α β : Type} (e : String) (f : α → Except String β) :
    ((Except.error e : Except String α) >>= f) = .error e := rfl

/-- C7 -/
theorem apply_mask_dot_product_correlation (data : List (List ℝ)) (w : List ℝ) :
    apply_mask ℝ pearsonRows data w "dot_product" =
      .ok (data.map (fun row => dotprod ℝ row w)) ∧
    apply_mask ℝ pearsonRows data w "correlation" =
      .ok (data.map (fun row => pearsonCorr row w)) := by
  exact ⟨rfl, rfl⟩

/-- C9 -/
theorem apply_mask_unknown_method (α : Type) [CommRing α]
    (pearson : List (List α) → List α → List α) (data : List (List α)) (w : List α)
    (method : String) (h1 : method ≠ "dot_product") (h2 : method ≠ "correlation") :
    apply_mask α pearson data w method = .error "NameError: name pexp is not defined" := by
  simp only [apply_mask, if_neg h1, if_neg h2]

theorem apply_mask_unknown_method_witness :
    ("pexp" : String) ≠ "dot_product" ∧ ("pexp" : String) ≠ "correlation" ∧
    apply_mask ℚ (fun _ _ => []) [[1]] [1] "pexp" =
      .error "NameError: name pexp is not defined" :=
  ⟨by decide, by decide,
    apply_mask_unknown_method ℚ (fun _ _ => []) [[1]] [1] "pexp" (by decide) (by decide)⟩

/-- C4 -/
theorem roc_optimal_balanced_raises :
    Roc.calculate (fun _ => 0) ⟨[0, 1], [false, true], "optimal_balanced", false⟩ none none
      (some [0, 1]) "optimal_balanced" false false =
    .error "NameError: name tpr is not defined" := by
  with_unfolding_all decide

/-- C5 -/
theorem roc_forced_choice_not_pair_centered :
    (Roc.calculate (fun _ => 0) ⟨[2, 0], [true, false], "optimal_overall", false⟩ none none
      (some [-2, 0]) "optimal_overall" true false).map
        (fun r => (r.input_values, r.class_thr)) = .ok ([0, -2], 0) ∧
    ¬ ((0 : ℚ) + -2) / 2 = 0 := by
  constructor
  · with_unfolding_all decide
  · norm_num

/-- C6 -/
theorem roc_calculate_accuracy (ppf : ℚ → ℚ) (self : Roc) (ivA : Option (List ℚ))
    (boA : Option (List Bool)) (critA : Option (List ℚ)) (tt : String) (fcA ba : Bool)
    (r : RocResult) (h : Roc.calculate ppf self ivA boA critA tt fcA ba = .ok r) :
    (ba = true → r.accuracy = (r.sensitivity + r.specificity) / 2) ∧
    (ba = false → r.accuracy = 1 - (countTrue r.misclass : ℚ) / (r.misclass.length : ℚ)) := by
  obtain ⟨crit, iv2, tpr, fpr, aucv, thr, fp0, fn0, mis0, misF, hcrit, hiv, hrates, hauc, hthr,
    hfp0, hfn0, hmis0, hnt, hnf, hmisF, hIV, hBO, hTT, hFC, hCV, hTPR, hFPR, hNT, hNF, hAUC,
    hTHR, hMIS, hSE, hSP, hACC, hN⟩ := calculate_ok_inv h
  constructor
  · intro hba; rw [hACC, if_pos hba]
  · intro hba
    rw [hACC, if_neg (by simp [hba]), hMIS]

theorem roc_calculate_accuracy_witness :
    exceptOkP (fun r => r.accuracy = 1 - (countTrue r.misclass : ℚ) / (r.misclass.length : ℚ))
      (Roc.calculate (fun _ => 0) ⟨[0, 1], [false, true], "optimal_overall", false⟩ none none
        (some [0, 1]) "optimal_overall" false false) := by
  cases hc : Roc.calculate (fun _ => 0) ⟨[0, 1], [false, true], "optimal_overall", false⟩ none
      none (some [0, 1]) "optimal_overall" false false with
  | error e =>
    have hok : (Roc.calculate (fun _ => 0) ⟨[0, 1], [false, true], "optimal_overall", false⟩
        none none (some [0, 1]) "optimal_overall" false false).isOk = true := by
      with_unfolding_all decide
    rw [hc] at hok
    have hfalse : (Except.error e : Except String RocResult).isOk = false := rfl
    rw [hfalse] at hok
    exact Bool.noConfusion hok
  | ok r =>
    exact (roc_calculate_accuracy (fun _ => 0) ⟨[0, 1], [false, true], "optimal_overall", false⟩
      none none (some [0, 1]) "optimal_overall" false false r hc).2 rfl

/-- C10 -/
theorem roc_calculate_frame_effect :
    (∀ (ppf : ℚ → ℚ) (self : Roc) (critA : Option (List ℚ)) (tt : String) (ba : Bool)
      (r : RocResult), self.forced_choice = false →
      Roc.calculate ppf self none none critA tt false ba = .ok r →
      r.input_values = self.input_values ∧ r.binary_outcome = self.binary_outcome) ∧
    (Roc.calculate (fun _ => 0) ⟨[2, 0], [true, false], "optimal_overall", false⟩ none none
      (some [-2, 0]) "optimal_overall" true false).map RocResult.input_values = .ok [0, -2] ∧
    ([(0 : ℚ), -2] ≠ [(2 : ℚ), 0]) := by
  refine ⟨?_, by with_unfolding_all decide, by norm_num⟩
  intro ppf self critA tt ba r hfc h
  obtain ⟨crit, iv2, tpr, fpr, aucv, thr, fp0, fn0, mis0, misF, hcrit, hiv, hrates, hauc, hthr,
    hfp0, hfn0, hmis0, hnt, hnf, hmisF, hIV, hBO, hTT, hFC, hCV, hTPR, hFPR, hNT, hNF, hAUC,
    hTHR, hMIS, hSE, hSP, hACC, hN⟩ := calculate_ok_inv h
  rw [hfc] at hiv
  simp only [Bool.or_self, boolStep_false, Option.getD_none, Except.ok.injEq] at hiv
  rw [hIV, hBO, ← hiv]
  exact ⟨rfl, by simp⟩

theorem roc_calculate_frame_effect_witness :
    exceptOkP (fun r => r.input_values = [0, 1] ∧ r.binary_outcome = [false, true])
      (Roc.calculate (fun _ => 0) ⟨[0, 1], [false, true], "optimal_overall", false⟩ none none
        (some [0, 1]) "optimal_overall" false false) := by
  cases hc : Roc.calculate (fun _ => 0) ⟨[0, 1], [false, true], "optimal_overall", false⟩ none
      none (some [0, 1]) "optimal_overall" false false with
  | error e =>
    have hok : (Roc.calculate (fun _ => 0) ⟨[0, 1], [false, true], "optimal_overall", false⟩
        none none (some [0, 1]) "optimal_overall" false false).isOk = true := by
      with_unfolding_all decide
    rw [hc] at hok
    have hfalse : (Except.error e : Except String RocResult).isOk = false := rfl
    rw [hfalse] at hok
    exact Bool.noConfusion hok
  | ok r =>
    exact roc_calculate_frame_effect.1 (fun _ => 0)
      ⟨[0, 1], [false, true], "optimal_overall", false⟩ (some [0, 1]) "optimal_overall" false
      r rfl hc

/-- C8 -/
theorem roc_all_true_zero_division (ppf : ℚ → ℚ) (iv : List ℚ) (bo : List Bool)
    (hne : bo ≠ []) (hall : ∀ b ∈ bo, b = true) (hlen : iv.length = bo.length) :
    Roc.init iv bo "optimal_overall" false = .ok ⟨iv, bo, "optimal_overall", false⟩ ∧
    Roc.calculate ppf ⟨iv, bo, "optimal_overall", false⟩ none none none "optimal_overall"
      false false = .error "ZeroDivisionError: float division by zero" := by
  have hanyT : bo.any id = true := by
    obtain ⟨b, bs, rfl⟩ := List.exists_cons_of_ne_nil hne
    have hb := hall b (List.mem_cons_self b bs)
    simp [hb]
  have hcount : countTrue bo = bo.length := by
    rw [countTrue]
    exact List.countP_eq_length.mpr (fun a ha => by rw [hall a ha]; rfl)
  have hcount0 : countTrue (bo.map not) = 0 := by
    rw [countTrue]
    refine List.countP_eq_zero.mpr ?_
    intro a ha
    obtain ⟨b, hb, rfl⟩ := List.mem_map.mp ha
    rw [hall b hb]
    simp
  have hbolen : bo.length ≠ 0 := by
    intro h0
    exact hne (List.eq_nil_of_length_eq_zero h0)
  have hivne : iv ≠ [] := by
    intro h0
    rw [h0] at hlen
    exact hbolen hlen.symm
  constructor
  · rw [Roc.init, if_neg (by simp [hlen]), if_neg (by simp [hanyT]), if_neg (by decide)]
  · obtain ⟨v, vs, rfl⟩ := List.exists_cons_of_ne_nil hivne
    have hcritlen : linspace ((vs.foldl min v)) ((vs.foldl max v)) (50 * bo.length) ≠ [] := by
      intro h0
      have : (linspace (vs.foldl min v) (vs.foldl max v) (50 * bo.length)).length = 0 := by
        rw [h0]; rfl
      rw [linspace, List.length_map, List.length_range] at this
      omega
    obtain ⟨c, cs, hcrit⟩ := List.exists_cons_of_ne_nil hcritlen
    simp only [Roc.calculate, Option.getD_none]
    rw [rocCriterion_none_cons, ok_bind]
    simp only [Bool.or_self, boolStep_false, ok_bind]
    rw [hcrit]
    simp only [rocRates]
    rw [if_neg (by rw [hcount]; exact hbolen), if_pos hcount0, error_bind]

theorem roc_all_true_zero_division_witness :
    ([true, true] : List Bool) ≠ [] ∧ (∀ b ∈ ([true, true] : List Bool), b = true) ∧
    ([(1 : ℚ), 2]).length = ([true, true] : List Bool).length ∧
    Roc.init [(1 : ℚ), 2] [true, true] "optimal_overall" false =
      .ok ⟨[(1 : ℚ), 2], [true, true], "optimal_overall", false⟩ ∧
    Roc.calculate (fun _ => 0) ⟨[(1 : ℚ), 2], [true, true], "optimal_overall", false⟩ none none
      none "optimal_overall" false false =
      .error "ZeroDivisionError: float division by zero" := by
  have hmain := roc_all_true_zero_division (fun _ => 0) [(1 : ℚ), 2] [true, true]
    (by decide) (by decide) (by decide)
  exact ⟨by decide, by decide, by decide, hmain.1, hmain.2⟩

/-- C1 -/
theorem roc_calculate_tpr_fpr (ppf : ℚ → ℚ) (iv : List ℚ) (bo : List Bool)
    (tt0 tt : String) (critA : Option (List ℚ)) (ba : Bool) (r : RocResult)
    (hlen : iv.length = bo.length)
    (htrue : bo.any id = true) (hfalse : bo.any (fun b => !b) = true)
    (h : Roc.calculate ppf ⟨iv, bo, tt0, false⟩ none none critA tt false ba = .ok r) :
    r.tpr = r.criterion_values.map
      (fun x => (hitCount iv bo x : ℚ) / (bo.countP id : ℚ)) ∧
    r.fpr = r.criterion_values.map
      (fun x => (faCount iv bo x : ℚ) / (bo.countP (fun b => !b) : ℚ)) := by
  obtain ⟨crit, iv2, tpr, fpr, aucv, thr, fp0, fn0, mis0, misF, hcrit, hiv, hrates, hauc, hthr,
    hfp0, hfn0, hmis0, hnt, hnf, hmisF, hIV, hBO, hTT, hFC, hCV, hTPR, hFPR, hNT, hNF, hAUC,
    hTHR, hMIS, hSE, hSP, hACC, hN⟩ := calculate_ok_inv h
  simp only [Bool.or_self, boolStep_false, Option.getD_none, Except.ok.injEq] at hiv hrates hCV hTPR hFPR hBO
  obtain ⟨htprs, hfprs⟩ := rocRates_ok hrates
  rw [← hiv] at htprs hfprs
  constructor
  · rw [hTPR, hCV, htprs]
    refine List.map_congr_left ?_
    intro x _
    rw [tprAt, countTrue_maskSel_map (fun v => decide (x ≤ v)) iv bo hlen]
    rfl
  · rw [hFPR, hCV, hfprs]
    refine List.map_congr_left ?_
    intro x _
    rw [fprAt, countTrue_maskSel_map_not (fun v => decide (x ≤ v)) iv bo hlen,
      countTrue_map_not]
    rfl

theorem roc_calculate_tpr_fpr_witness :
    exceptOkP (fun r =>
      r.tpr = r.criterion_values.map
        (fun x => (hitCount [0, 1] [false, true] x : ℚ) /
          (([false, true] : List Bool).countP id : ℚ)) ∧
      r.fpr = r.criterion_values.map
        (fun x => (faCount [0, 1] [false, true] x : ℚ) /
          (([false, true] : List Bool).countP (fun b => !b) : ℚ)))
      (Roc.calculate (fun _ => 0) ⟨[0, 1], [false, true], "optimal_overall", false⟩ none none
        (some [0, 1]) "optimal_overall" false false) := by
  cases hc : Roc.calculate (fun _ => 0) ⟨[0, 1], [false, true], "optimal_overall", false⟩ none
      none (some [0, 1]) "optimal_overall" false false with
  | error e =>
    have hok : (Roc.calculate (fun _ => 0) ⟨[0, 1], [false, true], "optimal_overall", false⟩
        none none (some [0, 1]) "optimal_overall" false false).isOk = true := by
      with_unfolding_all decide
    rw [hc] at hok
    have hfalse : (Except.error e : Except String RocResult).isOk = false := rfl
    rw [hfalse] at hok
    exact Bool.noConfusion hok
  | ok r =>
    exact roc_calculate_tpr_fpr (fun _ => 0) [0, 1] [false, true] "optimal_overall"
      "optimal_overall" (some [0, 1]) false r (by decide) (by decide) (by decide) hc

/-- C3 -/
theorem roc_calculate_optimal_overall (ppf : ℚ → ℚ) (iv : List ℚ) (bo : List Bool)
    (tt0 : String) (critA : Option (List ℚ)) (ba : Bool) (r : RocResult)
    (h : Roc.calculate ppf ⟨iv, bo, tt0, false⟩ none none critA "optimal_overall" false ba =
      .ok r) :
    ∃ i, i < r.criterion_values.length ∧
      r.class_thr = r.criterion_values.getD i 0 ∧
      ∀ j, j < r.criterion_values.length →
        r.tpr.getD j 0 * r.n_true + (1 - r.fpr.getD j 0) * r.n_false ≤
        r.tpr.getD i 0 * r.n_true + (1 - r.fpr.getD i 0) * r.n_false := by
  obtain ⟨crit, iv2, tpr, fpr, aucv, thr, fp0, fn0, mis0, misF, hcrit, hiv, hrates, hauc, hthr,
    hfp0, hfn0, hmis0, hnt, hnf, hmisF, hIV, hBO, hTT, hFC, hCV, hTPR, hFPR, hNT, hNF, hAUC,
    hTHR, hMIS, hSE, hSP, hACC, hN⟩ := calculate_ok_inv h
  simp only [Bool.or_self, boolStep_false, Option.getD_none] at hthr hrates hCV hNT hNF
  rw [rocThreshold, if_neg (by decide), if_pos rfl] at hthr
  obtain ⟨htprs, hfprs⟩ := rocRates_ok hrates
  have htlen : tpr.length = crit.length := by rw [htprs, List.length_map]
  have hflen : fpr.length = crit.length := by rw [hfprs, List.length_map]
  cases hsm : List.zipWith
      (fun t f => t * (countTrue bo : ℚ) + (1 - f) * (countTrue (bo.map not) : ℚ)) tpr fpr with
  | nil =>
    rw [hsm] at hthr
    exact Except.noConfusion hthr
  | cons s ss =>
    rw [hsm] at hthr
    injection hthr with hthr
    have hsmlen : (s :: ss).length = crit.length := by
      rw [← hsm, List.length_zipWith, htlen, hflen, Nat.min_self]
    have hspec := argmaxIdx_spec (s :: ss)
    have hilt : argmaxIdx (s :: ss) < crit.length := by
      rw [← hsmlen]
      exact hspec.1 (List.cons_ne_nil s ss)
    refine ⟨argmaxIdx (s :: ss), ?_, ?_, ?_⟩
    · rw [hCV]; exact hilt
    · rw [hTHR, hCV, ← hthr]
    · intro j hj
      rw [hCV] at hj
      have hj1 : j < tpr.length := by rw [htlen]; exact hj
      have hj2 : j < fpr.length := by rw [hflen]; exact hj
      have hi1 : argmaxIdx (s :: ss) < tpr.length := by rw [htlen]; exact hilt
      have hi2 : argmaxIdx (s :: ss) < fpr.length := by rw [hflen]; exact hilt
      have hgj := getD_zipWith
        (fun t f => t * (countTrue bo : ℚ) + (1 - f) * (countTrue (bo.map not) : ℚ))
        tpr fpr j hj1 hj2
      have hgi := getD_zipWith
        (fun t f => t * (countTrue bo : ℚ) + (1 - f) * (countTrue (bo.map not) : ℚ))
        tpr fpr (argmaxIdx (s :: ss)) hi1 hi2
      rw [hsm] at hgj hgi
      have hmax := hspec.2 j (by rw [hsmlen]; exact hj)
      rw [hgj, hgi] at hmax
      rw [hTPR, hFPR, hNT, hNF]
      exact hmax

/-- C2 -/
theorem roc_calculate_auc_trapezoid (ppf : ℚ → ℚ) (iv : List ℚ) (bo : List Bool)
    (tt0 tt : String) (ba : Bool) (r : RocResult)
    (hlen : iv.length = bo.length) (htrue : bo.any id = true)
    (hfalse : bo.any (fun b => !b) = true)
    (h : Roc.calculate ppf ⟨iv, bo, tt0, false⟩ none none none tt false ba = .ok r) :
    r.auc = trapezoidArea r.fpr r.tpr := by
  obtain ⟨crit, iv2, tpr, fpr, aucv, thr, fp0, fn0, mis0, misF, hcrit, hiv, hrates, hauc, hthr,
    hfp0, hfn0, hmis0, hnt, hnf, hmisF, hIV, hBO, hTT, hFC, hCV, hTPR, hFPR, hNT, hNF, hAUC,
    hTHR, hMIS, hSE, hSP, hACC, hN⟩ := calculate_ok_inv h
  simp only [Bool.or_self, boolStep_false, Option.getD_none, Except.ok.injEq] at hcrit hiv hrates hnf
  have hbone : bo ≠ [] := by
    intro h0
    rw [h0] at htrue
    exact Bool.noConfusion htrue
  have hivne : iv ≠ [] := by
    intro h0
    rw [h0] at hlen
    exact hbone (List.eq_nil_of_length_eq_zero hlen.symm)
  obtain ⟨v, vs, hiveq⟩ := List.exists_cons_of_ne_nil hivne
  subst hiveq
  rw [rocCriterion_none_cons, Except.ok.injEq] at hcrit
  rw [← hiv] at hrates
  obtain ⟨htprs, hfprs⟩ := rocRates_ok hrates
  have hnfN : countTrue (bo.map not) ≠ 0 := by
    intro h0
    rw [h0] at hnf
    exact hnf rfl
  have hnfpos : (0 : ℚ) < (countTrue (bo.map not) : ℚ) := by
    exact_mod_cast Nat.pos_of_ne_zero hnfN
  have hanti : ∀ p q : ℚ, p ≤ q → fprAt (v :: vs) bo q ≤ fprAt (v :: vs) bo p := by
    intro p q hpq
    rw [fprAt, fprAt, countTrue_maskSel_map_not _ _ _ hlen,
      countTrue_maskSel_map_not _ _ _ hlen]
    apply (div_le_div_iff_of_pos_right hnfpos).mpr
    have hmono : List.countP (fun pr => !pr.2 && decide (q ≤ pr.1)) ((v :: vs).zip bo) ≤
        List.countP (fun pr => !pr.2 && decide (p ≤ pr.1)) ((v :: vs).zip bo) := by
      refine List.countP_mono_left ?_
      intro a ha hq
      simp only [Bool.and_eq_true, decide_eq_true_eq] at hq ⊢
      exact ⟨hq.1, le_trans hpq hq.2⟩
    exact_mod_cast hmono
  have hchain : diffsAll (fun p q => decide (p ≤ q)) crit = true := by
    rw [← hcrit]
    exact linspace_chain _ _ (foldl_min_le_foldl_max v vs) _
  have hfchain : diffsAll (fun a b => decide (b ≤ a)) fpr = true := by
    rw [hfprs]
    exact diffsAll_map_anti (fprAt (v :: vs) bo) crit hanti hchain
  have hres := sklearnAuc_ok_eq hfchain hauc
  rw [hAUC, hFPR, hTPR]
  exact hres

theorem roc_calculate_optimal_overall_witness :
    exceptOkP (fun r => ∃ i, i < r.criterion_values.length ∧
      r.class_thr = r.criterion_values.getD i 0 ∧
      ∀ j, j < r.criterion_values.length →
        r.tpr.getD j 0 * r.n_true + (1 - r.fpr.getD j 0) * r.n_false ≤
        r.tpr.getD i 0 * r.n_true + (1 - r.fpr.getD i 0) * r.n_false)
      (Roc.calculate (fun _ => 0) ⟨[0, 1], [false, true], "optimal_overall", false⟩ none none
        (some [0, 1]) "optimal_overall" false false) := by
  cases hc : Roc.calculate (fun _ => 0) ⟨[0, 1], [false, true], "optimal_overall", false⟩ none
      none (some [0, 1]) "optimal_overall" false false with
  | error e =>
    have hok : (Roc.calculate (fun _ => 0) ⟨[0, 1], [false, true], "optimal_overall", false⟩
        none none (some [0, 1]) "optimal_overall" false false).isOk = true := by
      with_unfolding_all decide
    rw [hc] at hok
    have hfalse : (Except.error e : Except String RocResult).isOk = false := rfl
    rw [hfalse] at hok
    exact Bool.noConfusion hok
  | ok r =>
    exact roc_calculate_optimal_overall (fun _ => 0) [0, 1] [false, true] "optimal_overall"
      (some [0, 1]) false r hc

theorem roc_calculate_auc_trapezoid_witness :
    exceptOkP (fun r => r.auc = trapezoidArea r.fpr r.tpr)
      (Roc.calculate (fun _ => 0) ⟨[0, 1], [false, true], "optimal_overall", false⟩ none none
        none "optimal_overall" false false) := by
  cases hc : Roc.calculate (fun _ => 0) ⟨[0, 1], [false, true], "optimal_overall", false⟩ none
      none none "optimal_overall" false false with
  | error e =>
    have hok : (Roc.calculate (fun _ => 0) ⟨[0, 1], [false, true], "optimal_overall", false⟩
        none none none "optimal_overall" false false).isOk = true := by
      with_unfolding_all decide
    rw [hc] at hok
    have hfalse : (Except.error e : Except String RocResult).isOk = false := rfl
    rw [hfalse] at hok
    exact Bool.noConfusion hok
  | ok r =>
    exact roc_calculate_auc_trapezoid (fun _ => 0) [0, 1] [false, true] "optimal_overall"
      "optimal_overall" false r (by decide) (by decide) (by decide) hc
